import Mathlib

/-!
Verification of the iterative convert → evaluate → improve → export
conversion pipeline of the agents-in-the-wild repository.

The development shallowly embeds the control-flow core of the repository:

* the slicing loop `for i in range(0, len(items), cs): items[i:i+cs]`
  shared by `chunked` (agents/element/utils.py) and `spark_improve`
  (agents/sparky/ImprovementAgent.py);
* the improvement batching and `NameError` behaviour of `spark_improve`;
* the routing function `_route_after_evaluate` and the compiled graph
  `convert → evaluate → (improve → evaluate)* → export` of
  agents/sparky/PySparkAgent.py;
* the iteration loop of `SPConverter.run` (agents/element/utils.py);
* the retry recursion of `SPConverter.convert_sp_v2`;
* the Dependency Store primitives `find_from_json`
  (agents/element/base_utils.py) and `SPConverter.save_code`, and the
  recursive internal-procedure block of `SPConverter.prepare_dependencies`.

Python `float` scores are modelled as rationals (the pipeline only ever
compares scores against thresholds); Python dicts are modelled as
association lists in insertion order; a raised exception is modelled as the
`.error` case of `Except` (or as a `none` result of a graph run).
-/

variable {α : Type}

/-- A ConversionResult: the set of named output files produced by one
conversion attempt, modelled as an association list from file path to file
content (the `OutFiles` record of the PySpark flow, or the parsed JSON code
map of the stored-procedure converter). -/
abbrev Files := List (String × String)

/-- Structured output of the evaluation agent (`EvaluationOut` in
agents/element/EvaluationAgent.py, the same record the pyspark evaluate
node stores into the graph state): improvement suggestions, a numeric
score, and the reason behind the score. -/
structure EvaluationOut where
  improvements : List String
  score : ℚ
  reason : String
deriving DecidableEq, Repr

/-- Observable phases of a conversion run, used to trace which steps a run
executes. -/
inductive Phase where
  | convert
  | evaluate
  | improve
  | exportCode
deriving DecidableEq, Repr

/-- Fuel-indexed core of the slicing loop
`for start_index in range(0, len(items), cs): yield items[start:start+cs]`.
Every loop step consumes at least one element when `cs ≥ 1`, so
`items.length` steps of fuel are always enough. -/
def chunksGo (cs : Nat) : Nat → List α → List (List α)
  | _, [] => []
  | 0, _ :: _ => []
  | fuel + 1, x :: xs => ((x :: xs).take cs) :: chunksGo cs fuel ((x :: xs).drop cs)

/-- Successive slices `items[0:cs], items[cs:2*cs], …` of a list, as
produced by the stride-`cs` slicing loops of `chunked`
(agents/element/utils.py) and `spark_improve`
(agents/sparky/ImprovementAgent.py). -/
def sliceBatches (items : List α) (cs : Nat) : List (List α) :=
  chunksGo cs items.length items

/-- `chunked` from agents/element/utils.py: raises `ValueError` for a
non-positive chunk size, otherwise yields the successive slices. -/
def chunked (items : List α) (chunk_size : Int) : Except String (List (List α)) :=
  if chunk_size ≤ 0 then .error "chunk_size must be a positive integer"
  else .ok (sliceBatches items chunk_size.toNat)

/-- Trace of the batching loop of `spark_improve`: one entry per invocation
of the improvement agent, recording the batch of suggestions passed in and
the file set returned; each call sees the files produced by the previous
call (`converted_files = result.files`). -/
def improveCalls (agent : Files → List String → Files) :
    Files → List (List String) → List (List String × Files)
  | _, [] => []
  | files, b :: bs => (b, agent files b) :: improveCalls agent (agent files b) bs

/-- State update returned by a successful `spark_improve` call:
`{"converted_files": result.files, "iteration": state["iteration"] + 1}`. -/
structure SparkUpdate where
  converted_files : Files
  iteration : Nat
deriving Repr

/-- Loop body of `spark_improve`: invoke the improvement agent on the
current files and batch, remember the invocation result in `result`. -/
def sparkStep (agent : Files → List String → Files)
    (acc : Files × Option Files) (b : List String) : Files × Option Files :=
  (agent acc.1 b, some (agent acc.1 b))

/-- `spark_improve` (agents/sparky/ImprovementAgent.py): slice the
improvement list into batches of `range_value = 7`, invoke the improvement
agent once per batch threading the newest file set through, and return the
last invocation's files together with `iteration + 1`.  The local variable
`result` is bound only inside the loop, so with no batches the trailing
`result.files` raises a `NameError`, modelled as the `.error` case. -/
def spark_improve (agent : Files → List String → Files) (converted_files : Files)
    (improvements : List String) (iteration : Nat) : Except String SparkUpdate :=
  match (sliceBatches improvements 7).foldl (sparkStep agent) (converted_files, none) with
  | (_, none) => .error "NameError: name result is not defined"
  | (_, some r) => .ok ⟨r, iteration + 1⟩

/-- `_route_after_evaluate` (agents/sparky/PySparkAgent.py): export when the
score reaches the target or the iteration budget is exhausted, otherwise
improve.  The arguments are the values read from the graph state. -/
def route_after_evaluate (target_score : ℚ) (max_iters : Nat) (score : ℚ)
    (iteration : Nat) : String :=
  if target_score ≤ score then "export"
  else if max_iters ≤ iteration then "export"
  else "improve"

/-- Execution of the compiled pyspark graph from the EVALUATE node onward.
`oracle k` is the structured output of the k-th evaluation call; the
evaluate node stores its score and improvements into the state (modelled
from the spec: agents/sparky/EvaluationAgent.py is not among the sources;
the state update mirrors the identical `evaluate` in
agents/element/EvaluationAgent.py).  After each evaluation
`_route_after_evaluate` either exports or runs the improve node, which can
raise (empty improvement list); a raised exception aborts the run, giving a
`none` result.  The route exports as soon as `iteration ≥ max_iters`, so
`max_iters - iteration + 1` loop entries always suffice and the fuel
parameter is irrelevant on real runs. -/
def pysparkLoop (oracle : Nat → EvaluationOut) (agent : Files → List String → Files)
    (target_score : ℚ) (max_iters : Nat) :
    Nat → Nat → Nat → Files → List Phase × Option Files
  | 0, _, _, _ => ([], none)
  | fuel + 1, k, iteration, files =>
    if route_after_evaluate target_score max_iters (oracle k).score iteration
        = "improve" then
      match spark_improve agent files (oracle k).improvements iteration with
      | .error _ => ([Phase.evaluate], none)
      | .ok u =>
        (Phase.evaluate :: Phase.improve ::
            (pysparkLoop oracle agent target_score max_iters fuel (k + 1)
              u.iteration u.converted_files).1,
          (pysparkLoop oracle agent target_score max_iters fuel (k + 1)
            u.iteration u.converted_files).2)
    else ([Phase.evaluate, Phase.exportCode], some files)

/-- One full run of the pyspark graph: `convert → evaluate →
(improve → evaluate)* → export`, started by `run_pyspark_conversion` with
`iteration = 0`.  `convertOut` is the file set produced by the convert
node.  Returns the executed phases and the exported files, or `none` when
an exception escaped the graph. -/
def run_pyspark (oracle : Nat → EvaluationOut) (agent : Files → List String → Files)
    (convertOut : Files) (target_score : ℚ) (max_iters : Nat) :
    List Phase × Option Files :=
  (Phase.convert ::
      (pysparkLoop oracle agent target_score max_iters (max_iters + 1) 0 0 convertOut).1,
    (pysparkLoop oracle agent target_score max_iters (max_iters + 1) 0 0 convertOut).2)

/-- Iteration loop of `SPConverter.run` (agents/element/utils.py):
`for i in range(iterations): if self.evaluation.score < 90: self.runV2()`.
`runV2` invokes `convert_sp_v2` once per batch of `chunked(improvements, 2)`
of the current evaluation and then re-evaluates; `oracle k` is the k-th
evaluation result produced after the initial one. -/
def sp_iter_loop (oracle : Nat → EvaluationOut) :
    Nat → Nat → EvaluationOut → List Phase × EvaluationOut
  | 0, _, ev => ([], ev)
  | n + 1, k, ev =>
    if ev.score < 90 then
      ((List.replicate (sliceBatches ev.improvements 2).length Phase.improve
          ++ [Phase.evaluate]) ++ (sp_iter_loop oracle n (k + 1) (oracle k)).1,
        (sp_iter_loop oracle n (k + 1) (oracle k)).2)
    else sp_iter_loop oracle n k ev

/-- `SPConverter.run`: dependency preparation, then `runV1` (one conversion
followed by one evaluation), then the bounded improvement loop, and finally
— unconditionally — `export_code()` and `save_code()`, i.e. exactly one
export phase. -/
def sp_run (oracle : Nat → EvaluationOut) (iterations : Nat) :
    List Phase × EvaluationOut :=
  (Phase.convert :: Phase.evaluate ::
      ((sp_iter_loop oracle iterations 1 (oracle 0)).1 ++ [Phase.exportCode]),
    (sp_iter_loop oracle iterations 1 (oracle 0)).2)

/-- Success path of `SPConverter.evaluate_sp`: the structured response of
the evaluation agent is returned unchanged.  No clamping or validation of
the score happens between the model response and the `score < 90` /
`score >= target` gates of the controllers. -/
def evaluate_sp (response : EvaluationOut) : EvaluationOut :=
  response

/-- Retry recursion of `SPConverter.convert_sp_v2`: attempt the model call
and response parsing; on any exception, log and recurse with the same `imp`
argument.  `attempt j imp` is the outcome of the j-th attempt (attempts
differ only in ambient state such as the regenerated thread id, never in
the argument).  The real function recurses without bound; here it is
fuel-indexed, returning the argument passed to each attempt made, together
with `some` result of the first non-raising attempt, or `none` when every
attempt within fuel raised. -/
def convert_sp_v2 (attempt : Nat → String → Except String Files) (imp : String) :
    Nat → Nat → List String × Option Files
  | _, 0 => ([], none)
  | k, fuel + 1 =>
    match attempt k imp with
    | .ok code => ([imp], some code)
    | .error _ =>
      (imp :: (convert_sp_v2 attempt imp (k + 1) fuel).1,
        (convert_sp_v2 attempt imp (k + 1) fuel).2)

/-- Exact, case-sensitive key lookup of a Python `dict`, modelled on an
association list in insertion order (`data.get(key)`). -/
def dictGet : List (String × α) → String → Option α
  | [], _ => none
  | (k, v) :: rest, key => if k = key then some v else dictGet rest key

/-- Python `data[key] = value` on a `dict` modelled as an association list:
replace an existing binding in place, otherwise append a new one. -/
def pyDictSet : List (String × α) → String → α → List (String × α)
  | [], key, v => [(key, v)]
  | (k, w) :: rest, key, v =>
    if k = key then (key, v) :: rest else (k, w) :: pyDictSet rest key v

/-- `SPConverter.save_code`: whole-file read-modify-write of the procedure
catalogue `../metadata/stored_procedure.json`, setting the entry keyed by
the unit's name to its current code.  `none` models a missing catalogue
file, in which case a file holding exactly the one entry is written. -/
def save_code (name : String) (code : Files) :
    Option (List (String × Files)) → List (String × Files)
  | none => [(name, code)]
  | some data => pyDictSet data name code

/-- A JSON record: one object of a catalogue array, e.g. an entry of
`entities.json`. -/
abbrev Record := List (String × String)

/-- A JSON document held by a Dependency Store file: either a single object
(the procedure catalogue) or an array of records (the entity, function and
trigger catalogues). -/
inductive JsonData (α : Type) where
  | dict : List (String × α) → JsonData α
  | list : List Record → JsonData α

/-- Possible values returned by `find_from_json`: the whole document, a
value found by key, or a record found by field match. -/
inductive FindResult (α : Type) where
  | whole : JsonData α → FindResult α
  | value : Option α → FindResult α
  | record : Option Record → FindResult α

/-- Python truthiness of an optional string: `None` and `""` are falsy. -/
def pyTruthy : Option String → Bool
  | none => false
  | some s => !(s == "")

/-- Case-folded character list of a string (`str.lower()`). -/
def lowerChars (s : String) : List Char :=
  s.data.map Char.toLower

/-- `i.get(key)` on a record, where `key` may be `None` (Python's
`dict.get(None)` returns `None` since the records have string keys). -/
def recordGet (r : Record) (key : Option String) : Option String :=
  match key with
  | none => none
  | some k => dictGet r k

/-- The named-lookup loop of `find_from_json`:
`for i in data: if i.get(key).lower() == value.lower(): return i` followed
by `else: return None`.  The comparison is case-insensitive; a record
missing the field makes `.lower()` raise `AttributeError`. -/
def findNamedLoop (key : Option String) (value : String) :
    List Record → Except String (Option Record)
  | [] => .ok none
  | r :: rest =>
    match recordGet r key with
    | none => .error "AttributeError"
    | some v =>
      if lowerChars v = lowerChars value then .ok (some r)
      else findNamedLoop key value rest

/-- `find_from_json` (agents/element/base_utils.py) applied to the parsed
file contents: with neither key nor value, the whole document; with a key
only, an exact `data.get(key)` on an object or a scan for a record with a
truthy field on an array; with a value, the case-insensitive named-field
scan (iterating an object there would make `i.get` raise, as strings have
no `get`). -/
def find_from_json (data : JsonData α) (key value : Option String) :
    Except String (FindResult α) :=
  if !(pyTruthy key) && !(pyTruthy value) then
    .ok (.whole data)
  else if pyTruthy key && !(pyTruthy value) then
    match data with
    | .dict d => .ok (.value (dictGet d (key.getD "")))
    | .list l => .ok (.record (l.find? (fun r => pyTruthy (recordGet r key))))
  else
    match data with
    | .dict _ => .error "AttributeError"
    | .list l => (findNamedLoop key (value.getD "") l).map FindResult.record

/-- `sp.endswith(".sql")`. -/
def strEndsWith (s post : String) : Bool :=
  post.data.isSuffixOf s.data

/-- Name normalisation shared by `prepare_dependencies` and `read_sp`:
append the canonical `.sql` suffix when it is missing. -/
def normalize_sql_name (sp : String) : String :=
  if strEndsWith sp ".sql" then sp else sp ++ ".sql"

/-- Recursive-mode internal-procedure block of
`SPConverter.prepare_dependencies` (agents/element/utils.py, lines
150–166): for each identifier, normalise it, look it up in the procedure
catalogue, and test the result for Python truthiness (`if sps:` — `None`
and an empty code map are both falsy); when truthy append
`f"{sp}\n{sps}\n\n"` to the accumulated text; otherwise run a full child
conversion (`SPConverter(sp, …).run()`), whose export persists the child's
final code into the catalogue via `save_code`, and move on to the next
identifier — the loop performs no second lookup for the identifier.
`toText` renders a stored code map the way the f-string does;
`childFinal sp` is the child run's final code.  Returns the accumulated
dependency text and the catalogue left behind. -/
def prepare_internal_sps (toText : Files → String) (childFinal : String → Files) :
    List (String × Files) → List String → String × List (String × Files)
  | cat, [] => ("", cat)
  | cat, sp :: rest =>
    match dictGet cat (normalize_sql_name sp) with
    | some sps =>
      if sps.isEmpty then
        prepare_internal_sps toText childFinal
          (pyDictSet cat (normalize_sql_name sp)
            (childFinal (normalize_sql_name sp))) rest
      else
        (normalize_sql_name sp ++ "\n" ++ toText sps ++ "\n\n"
            ++ (prepare_internal_sps toText childFinal cat rest).1,
          (prepare_internal_sps toText childFinal cat rest).2)
    | none =>
      prepare_internal_sps toText childFinal
        (pyDictSet cat (normalize_sql_name sp)
          (childFinal (normalize_sql_name sp))) rest

/-- Boolean contiguous-sublist test, used to state whether a dependency
text includes a piece of code. -/
def listContainsB [BEq α] (needle : List α) : List α → Bool
  | [] => needle.isEmpty
  | a :: t => needle.isPrefixOf (a :: t) || listContainsB needle t

/-- Substring containment on strings. -/
def strContainsB (hay needle : String) : Bool :=
  listContainsB needle.data hay.data

/-- Nine improvement suggestions, a concrete input exercising the batching
loops. -/
def imps9 : List String := ["a", "b", "c", "d", "e", "f", "g", "h", "i"]

/-- Fifteen improvement suggestions, the batching scenario from the spec's
testable properties. -/
def imps15 : List String :=
  ["s01", "s02", "s03", "s04", "s05", "s06", "s07", "s08",
    "s09", "s10", "s11", "s12", "s13", "s14", "s15"]

/-- An evaluation oracle returning a low score and no improvement
suggestions on every call. -/
def oracleEmptyImprovements : Nat → EvaluationOut :=
  fun _ => ⟨[], 0, "low"⟩

/-- An evaluation oracle returning a mid score and one improvement
suggestion on every call. -/
def oracleOneImprovement : Nat → EvaluationOut :=
  fun _ => ⟨["tighten types"], 50, "mid"⟩

/-- An evaluation oracle returning a passing score on every call. -/
def oracleHighScore : Nat → EvaluationOut :=
  fun _ => ⟨[], 95, "good"⟩

/-- A model response whose score exceeds 100. -/
def outOfRangeResponse : EvaluationOut :=
  ⟨[], 150, "overshoot"⟩

/-- A concrete improvement agent for witnesses: it returns one file per
suggestion of the batch it is given. -/
def concatAgent : Files → List String → Files :=
  fun _ b => b.map (fun s => (s, s))

/-- A concrete attempt oracle for the retry analysis: the first two
attempts raise, the third succeeds. -/
def flakyAttempt : Nat → String → Except String Files :=
  fun k _ => if k < 2 then .error "model failure" else .ok [("A.java", "code")]

/-- A concrete rendering of a stored code map, standing in for the
f-string's `str()` in witnesses. -/
def spsText : Files → String :=
  fun _ => "SPS"

/-- A concrete child-conversion result for the dependency-resolution
witnesses. -/
def childCode : String → Files :=
  fun _ => [("A.java", "CODE")]

/-- A list whose length is zero chunks to nothing, whatever the fuel. -/
theorem chunksGo_nil (cs fuel : Nat) : chunksGo cs fuel ([] : List α) = [] := by
  cases fuel <;> rfl

/-- Arithmetic of the ceiling division count: one chunk plus the chunks of
the remainder. -/
theorem ceil_div_succ {L cs : Nat} (hL : 0 < L) (hcs : 0 < cs) :
    (L + cs - 1) / cs = ((L - cs) + cs - 1) / cs + 1 := by
  rcases le_or_lt cs L with h | h
  · have hrw : L + cs - 1 = ((L - cs) + cs - 1) + cs := by omega
    rw [hrw, Nat.add_div_right _ hcs]
  · have h1 : L - cs = 0 := by omega
    have h2 : (0 + cs - 1) / cs = 0 := Nat.div_eq_of_lt (by omega)
    rw [h1, h2]
    exact Nat.div_eq_of_lt_le (by omega) (by omega)

/-- The slicing loop produces one slice `items[j*cs : j*cs + cs]` for each
`j` below the ceiling of `length / cs`. -/
theorem chunksGo_eq_map_range {cs : Nat} (hcs : 0 < cs) :
    ∀ (fuel : Nat) (items : List α), items.length ≤ fuel →
      chunksGo cs fuel items =
        (List.range ((items.length + cs - 1) / cs)).map
          (fun j => (items.drop (j * cs)).take cs) := by
  intro fuel
  induction fuel with
  | zero =>
    intro items h
    have hnil : items = [] := List.length_eq_zero.mp (by omega)
    subst hnil
    have h0 : ((List.length ([] : List α)) + cs - 1) / cs = 0 := by
      simp only [List.length_nil, Nat.zero_add]
      exact Nat.div_eq_of_lt (by omega)
    rw [chunksGo_nil, h0]
    rfl
  | succ f ih =>
    intro items h
    cases items with
    | nil =>
      have h0 : ((List.length ([] : List α)) + cs - 1) / cs = 0 := by
        simp only [List.length_nil, Nat.zero_add]
        exact Nat.div_eq_of_lt (by omega)
      rw [chunksGo_nil, h0]
      rfl
    | cons x xs =>
      have hlen : ((x :: xs).drop cs).length ≤ f := by
        rw [List.length_drop]
        simp only [List.length_cons] at h ⊢
        omega
      have hcount : ((x :: xs).length + cs - 1) / cs
          = (((x :: xs).drop cs).length + cs - 1) / cs + 1 := by
        rw [List.length_drop]
        exact ceil_div_succ (by simp) hcs
      rw [show chunksGo cs (f + 1) (x :: xs)
            = ((x :: xs).take cs) :: chunksGo cs f ((x :: xs).drop cs) from rfl,
        hcount, List.range_succ_eq_map, List.map_cons, List.map_map]
      congr 1
      · rw [Nat.zero_mul, List.drop_zero]
      · rw [ih _ hlen]
        refine List.map_congr_left ?_
        intro j _
        simp only [Function.comp_apply, List.drop_drop]
        have : cs + j * cs = Nat.succ j * cs := by
          rw [Nat.succ_mul, Nat.add_comm]
        rw [this]

/-- The slices of a list, as a map over the range of chunk indices. -/
theorem sliceBatches_eq {cs : Nat} (hcs : 0 < cs) (items : List α) :
    sliceBatches items cs =
      (List.range ((items.length + cs - 1) / cs)).map
        (fun j => (items.drop (j * cs)).take cs) :=
  chunksGo_eq_map_range hcs items.length items le_rfl

/-- Number of slices: the ceiling of `length / cs`. -/
theorem sliceBatches_length {cs : Nat} (hcs : 0 < cs) (items : List α) :
    (sliceBatches items cs).length = (items.length + cs - 1) / cs := by
  rw [sliceBatches_eq hcs]
  simp

/-- A non-empty list has at least one slice. -/
theorem sliceBatches_ne_nil (cs : Nat) {items : List α} (h : items ≠ []) :
    sliceBatches items cs ≠ [] := by
  cases items with
  | nil => exact absurd rfl h
  | cons x xs => simp [sliceBatches, chunksGo]

/-- Every slice except possibly the last is full. -/
theorem chunksGo_dropLast_length {cs : Nat} (hcs : 0 < cs) :
    ∀ (fuel : Nat) (items : List α), items.length ≤ fuel →
      ∀ b ∈ (chunksGo cs fuel items).dropLast, b.length = cs := by
  intro fuel
  induction fuel with
  | zero =>
    intro items h b hb
    have hnil : items = [] := List.length_eq_zero.mp (by omega)
    subst hnil
    rw [chunksGo_nil] at hb
    simp at hb
  | succ f ih =>
    intro items h b hb
    cases items with
    | nil =>
      rw [chunksGo_nil] at hb
      simp at hb
    | cons x xs =>
      rw [show chunksGo cs (f + 1) (x :: xs)
            = ((x :: xs).take cs) :: chunksGo cs f ((x :: xs).drop cs) from rfl] at hb
      have hlen : ((x :: xs).drop cs).length ≤ f := by
        rw [List.length_drop]
        simp only [List.length_cons] at h ⊢
        omega
      rcases hrest : chunksGo cs f ((x :: xs).drop cs) with _ | ⟨r, rs⟩
      · rw [hrest] at hb
        simp at hb
      · rw [hrest] at hb
        have hdrop : (x :: xs).drop cs ≠ [] := by
          intro hd
          rw [hd, chunksGo_nil] at hrest
          exact List.noConfusion hrest
        have hcslt : cs < (x :: xs).length := by
          by_contra hcon
          exact hdrop (List.drop_eq_nil_iff.mpr (by omega))
        rw [show (((x :: xs).take cs) :: r :: rs).dropLast
              = ((x :: xs).take cs) :: (r :: rs).dropLast from rfl] at hb
        rcases List.mem_cons.mp hb with hhead | htail
        · rw [hhead, List.length_take]
          omega
        · exact ih _ hlen b (hrest ▸ htail)

/-- Every slice except possibly the last is full. -/
theorem sliceBatches_dropLast_length {cs : Nat} (hcs : 0 < cs) (items : List α) :
    ∀ b ∈ (sliceBatches items cs).dropLast, b.length = cs :=
  chunksGo_dropLast_length hcs items.length items le_rfl

/-- The batches fed to the improvement agent are exactly the given ones, in
order. -/
theorem improveCalls_map_fst (agent : Files → List String → Files) :
    ∀ (bs : List (List String)) (files : Files),
      (improveCalls agent files bs).map Prod.fst = bs := by
  intro bs
  induction bs with
  | nil => intro files; rfl
  | cons b bs ih =>
    intro files
    simp only [improveCalls, List.map_cons, ih]

/-- One invocation per batch. -/
theorem improveCalls_length (agent : Files → List String → Files)
    (bs : List (List String)) (files : Files) :
    (improveCalls agent files bs).length = bs.length := by
  have h := congrArg List.length (improveCalls_map_fst agent bs files)
  simpa using h

/-- Some batches mean some invocations. -/
theorem improveCalls_ne_nil (agent : Files → List String → Files) (files : Files)
    {bs : List (List String)} (h : bs ≠ []) :
    improveCalls agent files bs ≠ [] := by
  cases bs with
  | nil => exact absurd rfl h
  | cons b bs => simp [improveCalls]

/-- Helper: consing onto a non-empty list does not change its last
element. -/
theorem getLast?_cons_ne {β : Type} {l : List β} (x : β) (h : l ≠ []) :
    (x :: l).getLast? = l.getLast? := by
  cases l with
  | nil => exact absurd rfl h
  | cons y ys => exact List.getLast?_cons_cons

/-- The final invocation's output is the left fold of the agent over the
batches. -/
theorem improveCalls_getLast_snd (agent : Files → List String → Files) :
    ∀ (bs : List (List String)) (files : Files), bs ≠ [] →
      (improveCalls agent files bs).getLast?.map Prod.snd
        = some (bs.foldl agent files) := by
  intro bs
  induction bs with
  | nil => intro files h; exact absurd rfl h
  | cons b bs ih =>
    intro files _
    cases bs with
    | nil => rfl
    | cons b2 bs2 =>
      rw [show improveCalls agent files (b :: b2 :: bs2)
            = (b, agent files b) :: improveCalls agent (agent files b) (b2 :: bs2)
          from rfl]
      rw [getLast?_cons_ne _ (improveCalls_ne_nil agent _ (by simp)),
        ih _ (by simp)]
      rfl

/-- The pair threaded through the `spark_improve` loop: current files and
the last invocation result. -/
theorem sparkFold_snd (agent : Files → List String → Files) :
    ∀ (bs : List (List String)) (files : Files) (o : Option Files), bs ≠ [] →
      bs.foldl (sparkStep agent) (files, o)
        = (bs.foldl agent files, some (bs.foldl agent files)) := by
  intro bs
  induction bs with
  | nil => intro files o h; exact absurd rfl h
  | cons b bs ih =>
    intro files o _
    cases bs with
    | nil => rfl
    | cons b2 bs2 =>
      rw [List.foldl_cons, List.foldl_cons]
      exact ih _ _ (by simp)

/-- With at least one suggestion, `spark_improve` returns the fold of the
agent over the size-7 batches and bumps the iteration counter. -/
theorem spark_improve_ok (agent : Files → List String → Files) (files : Files)
    {imps : List String} (h : imps ≠ []) (it : Nat) :
    spark_improve agent files imps it
      = .ok ⟨(sliceBatches imps 7).foldl agent files, it + 1⟩ := by
  unfold spark_improve
  rw [sparkFold_snd agent _ _ _ (sliceBatches_ne_nil 7 h)]

/-- With no suggestions, the loop never binds `result` and the trailing
`result.files` raises. -/
theorem spark_improve_empty (agent : Files → List String → Files) (files : Files)
    (it : Nat) :
    spark_improve agent files [] it = .error "NameError: name result is not defined" :=
  rfl

/-- C10: the PySpark improve step is only defined for a non-empty
improvements list: on an empty list the batching loop body never executes
and the function raises an unbound-variable `NameError` on `result` instead
of returning a state update, so reaching the improve node requires at least
one improvement suggestion from the preceding evaluation. -/
theorem C10_spark_improve_requires_improvements
    (agent : Files → List String → Files) (files : Files)
    (imps : List String) (it : Nat) :
    spark_improve agent files [] it = .error "NameError: name result is not defined"
    ∧ ((∃ u, spark_improve agent files imps it = .ok u) ↔ imps ≠ []) := by
  refine ⟨spark_improve_empty agent files it, ?_, ?_⟩
  · rintro ⟨u, hu⟩ hnil
    subst hnil
    rw [spark_improve_empty] at hu
    exact Except.noConfusion hu
  · intro h
    exact ⟨_, spark_improve_ok agent files h it⟩

/-- C4: for a non-empty list of N improvement suggestions and batch size
B > 0, the improver invokes the improvement agent exactly ⌈N/B⌉ times, on
the contiguous slices `[0:B], [B:2B], …` in original order, and the
ConversionResult returned by `spark_improve` (whose `range_value` is 7) is
exactly the file set produced by the final invocation. -/
theorem C4_improvement_batching (agent : Files → List String → Files)
    (files : Files) (imps : List String) (B it : Nat)
    (hB : 0 < B) (him : imps ≠ []) :
    (improveCalls agent files (sliceBatches imps B)).length = (imps.length + B - 1) / B
    ∧ (improveCalls agent files (sliceBatches imps B)).map Prod.fst
        = (List.range ((imps.length + B - 1) / B)).map
            (fun j => (imps.drop (j * B)).take B)
    ∧ (improveCalls agent files (sliceBatches imps B)).getLast?.map Prod.snd
        = some ((sliceBatches imps B).foldl agent files)
    ∧ spark_improve agent files imps it
        = .ok ⟨(sliceBatches imps 7).foldl agent files, it + 1⟩ := by
  refine ⟨?_, ?_, ?_, spark_improve_ok agent files him it⟩
  · rw [improveCalls_length, sliceBatches_length hB]
  · rw [improveCalls_map_fst, sliceBatches_eq hB]
  · exact improveCalls_getLast_snd agent _ files (sliceBatches_ne_nil B him)

/-- Witness for C4 at the spec's test scenario: 15 suggestions with batch
size 7 give 3 invocations, on the slices `[0:7]`, `[7:14]`, `[14:15]`. -/
theorem C4_improvement_batching_witness :
    ((improveCalls concatAgent [] (sliceBatches imps15 7)).length = 3
      ∧ (sliceBatches imps15 7).map List.length = [7, 7, 1])
    ∧ ((improveCalls concatAgent [] (sliceBatches imps15 7)).length
          = (imps15.length + 7 - 1) / 7
      ∧ (improveCalls concatAgent [] (sliceBatches imps15 7)).map Prod.fst
          = (List.range ((imps15.length + 7 - 1) / 7)).map
              (fun j => (imps15.drop (j * 7)).take 7)
      ∧ (improveCalls concatAgent [] (sliceBatches imps15 7)).getLast?.map Prod.snd
          = some ((sliceBatches imps15 7).foldl concatAgent [])
      ∧ spark_improve concatAgent [] imps15 0
          = .ok ⟨(sliceBatches imps15 7).foldl concatAgent [], 0 + 1⟩) :=
  ⟨⟨by decide, by decide⟩,
    C4_improvement_batching concatAgent [] imps15 7 0 (by decide) (by decide)⟩

/-- C5 counterexample: the PySpark pipeline's improvement chunking uses
batch size 7, not 2 — with nine suggestions the first (non-final)
invocation of the improvement agent receives 7 suggestions. -/
theorem C5_counterexample_batch_is_seven :
    ((improveCalls concatAgent [] (sliceBatches imps9 7)).map (fun c => c.1.length)
        = [7, 2])
    ∧ ¬ (∀ b ∈ (sliceBatches imps9 7).dropLast, b.length = 2) :=
  ⟨by decide, by decide⟩

/-- C5 (amended): improvements are applied in fixed-size batches — size 7
in the PySpark pipeline's chunking (`range_value = 7` in `spark_improve`)
and size 2 in `SPConverter.runV2`'s `chunked(improvements, 2)` — so every
invocation except possibly the last receives exactly 7 (respectively 2)
suggestions. -/
theorem C5_amended_batch_sizes (imps : List String) :
    (∀ b ∈ (sliceBatches imps 7).dropLast, b.length = 7)
    ∧ (∀ b ∈ (sliceBatches imps 2).dropLast, b.length = 2) :=
  ⟨sliceBatches_dropLast_length (by omega) imps,
    sliceBatches_dropLast_length (by omega) imps⟩

/-- Witness for the amended C5: the first batch of nine suggestions under
batch size 7 is full. -/
theorem C5_amended_batch_sizes_witness :
    (["a", "b", "c", "d", "e", "f", "g"] ∈ (sliceBatches imps9 7).dropLast)
    ∧ (["a", "b", "c", "d", "e", "f", "g"] : List String).length = 7 :=
  ⟨by decide, (C5_amended_batch_sizes imps9).1 _ (by decide)⟩

/-- Helper: counting an element it does not start with. -/
theorem count_cons_ne (a b : Phase) (l : List Phase) (h : ¬ (b == a) = true) :
    (b :: l).count a = l.count a := by
  rw [List.count_cons, if_neg h, Nat.add_zero]

/-- Helper: counting the head element. -/
theorem count_cons_self' (a : Phase) (l : List Phase) :
    (a :: l).count a = l.count a + 1 := by
  rw [List.count_cons, if_pos (by simp)]

/-- Helper: a replicated phase contributes nothing to the count of a
different phase. -/
theorem count_replicate_ne (a b : Phase) (n : Nat) (h : ¬ (b == a) = true) :
    (List.replicate n b).count a = 0 := by
  rw [List.count_replicate, if_neg h]

/-- A route answer of "improve" means the score missed the target and the
iteration budget is not exhausted. -/
theorem route_improve_inv {t : ℚ} {m : Nat} {s : ℚ} {i : Nat}
    (h : route_after_evaluate t m s i = "improve") : ¬ t ≤ s ∧ ¬ m ≤ i := by
  unfold route_after_evaluate at h
  split_ifs at h with h1 h2
  · exact absurd h (by decide)
  · exact absurd h (by decide)
  · exact ⟨h1, h2⟩

/-- Reaching the target score routes to export. -/
theorem route_export_of_score {t s : ℚ} (m i : Nat) (h : t ≤ s) :
    route_after_evaluate t m s i = "export" := by
  unfold route_after_evaluate
  rw [if_pos h]

/-- Phase list of a loop entry that routes to export. -/
theorem pysparkLoop_succ_export_fst (oracle : Nat → EvaluationOut)
    (agent : Files → List String → Files) (t : ℚ) (m fuel k i : Nat) (files : Files)
    (hr : ¬ route_after_evaluate t m (oracle k).score i = "improve") :
    (pysparkLoop oracle agent t m (fuel + 1) k i files).1
      = [Phase.evaluate, Phase.exportCode] := by
  simp only [pysparkLoop]
  rw [if_neg hr]

/-- Final files of a loop entry that routes to export. -/
theorem pysparkLoop_succ_export_snd (oracle : Nat → EvaluationOut)
    (agent : Files → List String → Files) (t : ℚ) (m fuel k i : Nat) (files : Files)
    (hr : ¬ route_after_evaluate t m (oracle k).score i = "improve") :
    (pysparkLoop oracle agent t m (fuel + 1) k i files).2 = some files := by
  simp only [pysparkLoop]
  rw [if_neg hr]

/-- Phase list of a loop entry that routes to improve and improves
successfully. -/
theorem pysparkLoop_succ_improve_fst (oracle : Nat → EvaluationOut)
    (agent : Files → List String → Files) (t : ℚ) (m fuel k i : Nat)
    (files newFiles : Files)
    (hr : route_after_evaluate t m (oracle k).score i = "improve")
    (hu : spark_improve agent files (oracle k).improvements i = .ok ⟨newFiles, i + 1⟩) :
    (pysparkLoop oracle agent t m (fuel + 1) k i files).1
      = Phase.evaluate :: Phase.improve ::
          (pysparkLoop oracle agent t m fuel (k + 1) (i + 1) newFiles).1 := by
  simp only [pysparkLoop]
  rw [if_pos hr, hu]

/-- Final files of a loop entry that routes to improve and improves
successfully. -/
theorem pysparkLoop_succ_improve_snd (oracle : Nat → EvaluationOut)
    (agent : Files → List String → Files) (t : ℚ) (m fuel k i : Nat)
    (files newFiles : Files)
    (hr : route_after_evaluate t m (oracle k).score i = "improve")
    (hu : spark_improve agent files (oracle k).improvements i = .ok ⟨newFiles, i + 1⟩) :
    (pysparkLoop oracle agent t m (fuel + 1) k i files).2
      = (pysparkLoop oracle agent t m fuel (k + 1) (i + 1) newFiles).2 := by
  simp only [pysparkLoop]
  rw [if_pos hr, hu]

/-- Liveness and export-uniqueness of the pyspark evaluate loop, provided
every evaluation that the router actually sends to improve returns at least
one improvement suggestion: the loop completes (some files come out),
performs at most `max_iters - iteration + 1` evaluations and exactly one
export, and ends with the export phase. -/
theorem pysparkLoop_spec (oracle : Nat → EvaluationOut)
    (agent : Files → List String → Files) (target : ℚ) (maxIters : Nat)
    (himp : ∀ k i, route_after_evaluate target maxIters (oracle k).score i = "improve" →
      (oracle k).improvements ≠ []) :
    ∀ (fuel k iteration : Nat) (files : Files),
      maxIters - iteration + 1 ≤ fuel →
      (∃ f, (pysparkLoop oracle agent target maxIters fuel k iteration files).2 = some f)
      ∧ (pysparkLoop oracle agent target maxIters fuel k iteration files).1.count
            Phase.evaluate ≤ (maxIters - iteration) + 1
      ∧ (pysparkLoop oracle agent target maxIters fuel k iteration files).1.count
            Phase.exportCode = 1
      ∧ (pysparkLoop oracle agent target maxIters fuel k iteration files).1.getLast?
          = some Phase.exportCode := by
  intro fuel
  induction fuel with
  | zero =>
    intro k i files h
    exact absurd h (by omega)
  | succ f ih =>
    intro k i files h
    by_cases hr : route_after_evaluate target maxIters (oracle k).score i = "improve"
    · obtain ⟨h1, h2⟩ := route_improve_inv hr
      have hok := spark_improve_ok agent files (himp k i hr) i
      obtain ⟨⟨f0, hf0⟩, hev, hex, hlast⟩ :=
        ih (k + 1) (i + 1)
          ((sliceBatches (oracle k).improvements 7).foldl agent files) (by omega)
      have hne : (pysparkLoop oracle agent target maxIters f (k + 1) (i + 1)
          ((sliceBatches (oracle k).improvements 7).foldl agent files)).1 ≠ [] := by
        intro hnil
        rw [hnil] at hlast
        exact Option.noConfusion hlast
      refine ⟨⟨f0, ?_⟩, ?_, ?_, ?_⟩
      · rw [pysparkLoop_succ_improve_snd oracle agent target maxIters f k i files _ hr hok]
        exact hf0
      · rw [pysparkLoop_succ_improve_fst oracle agent target maxIters f k i files _ hr hok,
          count_cons_self', count_cons_ne _ _ _ (by decide)]
        omega
      · rw [pysparkLoop_succ_improve_fst oracle agent target maxIters f k i files _ hr hok,
          count_cons_ne _ _ _ (by decide), count_cons_ne _ _ _ (by decide)]
        exact hex
      · rw [pysparkLoop_succ_improve_fst oracle agent target maxIters f k i files _ hr hok,
          List.getLast?_cons_cons, getLast?_cons_ne _ hne]
        exact hlast
    · refine ⟨⟨files, ?_⟩, ?_, ?_, ?_⟩
      · exact pysparkLoop_succ_export_snd oracle agent target maxIters f k i files hr
      · rw [pysparkLoop_succ_export_fst oracle agent target maxIters f k i files hr]
        have : ([Phase.evaluate, Phase.exportCode]).count Phase.evaluate = 1 := by decide
        omega
      · rw [pysparkLoop_succ_export_fst oracle agent target maxIters f k i files hr]
        decide
      · rw [pysparkLoop_succ_export_fst oracle agent target maxIters f k i files hr]
        decide

/-- Counting phases produced by the `SPConverter.run` iteration loop: at
most one evaluation per loop entry, and never an export or a convert. -/
theorem sp_iter_loop_counts (oracle : Nat → EvaluationOut) :
    ∀ (n k : Nat) (ev : EvaluationOut),
      (sp_iter_loop oracle n k ev).1.count Phase.evaluate ≤ n
      ∧ (sp_iter_loop oracle n k ev).1.count Phase.exportCode = 0
      ∧ (sp_iter_loop oracle n k ev).1.count Phase.convert = 0 := by
  intro n
  induction n with
  | zero =>
    intro k ev
    have h0 : (sp_iter_loop oracle 0 k ev).1 = [] := rfl
    rw [h0]
    exact ⟨by simp, by simp, by simp⟩
  | succ n ih =>
    intro k ev
    obtain ⟨h1, h2, h3⟩ := ih (k + 1) (oracle k)
    obtain ⟨h1', h2', h3'⟩ := ih k ev
    by_cases hs : ev.score < 90
    · have hfst : (sp_iter_loop oracle (n + 1) k ev).1
          = (List.replicate (sliceBatches ev.improvements 2).length Phase.improve
              ++ [Phase.evaluate]) ++ (sp_iter_loop oracle n (k + 1) (oracle k)).1 := by
        simp only [sp_iter_loop, if_pos hs]
      refine ⟨?_, ?_, ?_⟩
      · rw [hfst, List.count_append, List.count_append,
          count_replicate_ne _ _ _ (by decide)]
        have : ([Phase.evaluate]).count Phase.evaluate = 1 := by decide
        omega
      · rw [hfst, List.count_append, List.count_append,
          count_replicate_ne _ _ _ (by decide)]
        have : ([Phase.evaluate]).count Phase.exportCode = 0 := by decide
        omega
      · rw [hfst, List.count_append, List.count_append,
          count_replicate_ne _ _ _ (by decide)]
        have : ([Phase.evaluate]).count Phase.convert = 0 := by decide
        omega
    · have hstep : sp_iter_loop oracle (n + 1) k ev = sp_iter_loop oracle n k ev := by
        simp only [sp_iter_loop, if_neg hs]
      rw [hstep]
      exact ⟨Nat.le_trans h1' (by omega), h2', h3'⟩

/-- A score at or above 90 makes the `SPConverter.run` iteration loop a
no-op. -/
theorem sp_iter_loop_stable (oracle : Nat → EvaluationOut) :
    ∀ (n k : Nat) (ev : EvaluationOut), ¬ ev.score < 90 →
      sp_iter_loop oracle n k ev = ([], ev) := by
  intro n
  induction n with
  | zero => intro k ev _; rfl
  | succ n ih =>
    intro k ev h
    have hstep : sp_iter_loop oracle (n + 1) k ev = sp_iter_loop oracle n k ev := by
      simp only [sp_iter_loop, if_neg h]
    rw [hstep]
    exact ih k ev h

/-- C1 counterexample: a pyspark run whose evaluation scores below the
target but yields no improvement suggestions crashes in the improve node
(`NameError`, the `none` outcome) and terminates without ever executing the
export phase — refuting "the export phase executes exactly once" for every
run of the iteration controller. -/
theorem C1_counterexample_crash_without_export :
    (run_pyspark oracleEmptyImprovements concatAgent [] 90 2).2 = none
    ∧ (run_pyspark oracleEmptyImprovements concatAgent [] 90 2).1.count
        Phase.exportCode = 0 :=
  ⟨by decide, by decide⟩

/-- C1 (amended): provided every evaluation that `_route_after_evaluate`
routes to improve returns a non-empty improvements list (evaluations routed
to export may return none), a pyspark run with maximum iterations M
executes the evaluate phase at most M + 1 times, the export phase exactly
once, and ends with export; the stored-procedure controller
`SPConverter.run` satisfies the same bound unconditionally (its `runV2`
handles an empty improvement list) and always exports exactly once. -/
theorem C1_amended_termination_and_export
    (oracle spOracle : Nat → EvaluationOut) (agent : Files → List String → Files)
    (convertOut : Files) (target : ℚ) (maxIters iterations : Nat)
    (himp : ∀ k i, route_after_evaluate target maxIters (oracle k).score i = "improve" →
      (oracle k).improvements ≠ []) :
    ((∃ f, (run_pyspark oracle agent convertOut target maxIters).2 = some f)
      ∧ (run_pyspark oracle agent convertOut target maxIters).1.count Phase.evaluate
          ≤ maxIters + 1
      ∧ (run_pyspark oracle agent convertOut target maxIters).1.count Phase.exportCode = 1
      ∧ (run_pyspark oracle agent convertOut target maxIters).1.getLast?
          = some Phase.exportCode)
    ∧ ((sp_run spOracle iterations).1.count Phase.evaluate ≤ iterations + 1
      ∧ (sp_run spOracle iterations).1.count Phase.exportCode = 1
      ∧ (sp_run spOracle iterations).1.getLast? = some Phase.exportCode) := by
  constructor
  · obtain ⟨⟨f0, hf0⟩, hev, hex, hlast⟩ :=
      pysparkLoop_spec oracle agent target maxIters himp (maxIters + 1) 0 0 convertOut
        (by omega)
    have hne : (pysparkLoop oracle agent target maxIters (maxIters + 1) 0 0 convertOut).1
        ≠ [] := by
      intro hnil
      rw [hnil] at hlast
      exact Option.noConfusion hlast
    simp only [run_pyspark]
    refine ⟨⟨f0, hf0⟩, ?_, ?_, ?_⟩
    · rw [count_cons_ne _ _ _ (by decide)]
      omega
    · rw [count_cons_ne _ _ _ (by decide)]
      exact hex
    · rw [getLast?_cons_ne _ hne]
      exact hlast
  · obtain ⟨h1, h2, h3⟩ := sp_iter_loop_counts spOracle iterations 1 (spOracle 0)
    simp only [sp_run]
    refine ⟨?_, ?_, ?_⟩
    · rw [count_cons_ne _ _ _ (by decide), count_cons_self', List.count_append]
      have : ([Phase.exportCode]).count Phase.evaluate = 0 := by decide
      omega
    · rw [count_cons_ne _ _ _ (by decide), count_cons_ne _ _ _ (by decide),
        List.count_append]
      have : ([Phase.exportCode]).count Phase.exportCode = 1 := by decide
      omega
    · rw [show Phase.convert :: Phase.evaluate ::
            ((sp_iter_loop spOracle iterations 1 (spOracle 0)).1 ++ [Phase.exportCode])
          = (Phase.convert :: Phase.evaluate ::
              (sp_iter_loop spOracle iterations 1 (spOracle 0)).1) ++ [Phase.exportCode]
          from by simp]
      exact List.getLast?_concat _

/-- Witness for the amended C1 at a concrete configuration the original
hypothesis would have excluded: a first evaluation that passes the target
with zero suggestions (so no evaluation is ever routed to improve and the
proviso holds vacuously), target 90, maximum iterations 1 (pyspark) and 2
(element converter). -/
theorem C1_amended_termination_and_export_witness :
    ((∃ f, (run_pyspark oracleHighScore concatAgent [] 90 1).2 = some f)
      ∧ (run_pyspark oracleHighScore concatAgent [] 90 1).1.count Phase.evaluate
          ≤ 1 + 1
      ∧ (run_pyspark oracleHighScore concatAgent [] 90 1).1.count Phase.exportCode = 1
      ∧ (run_pyspark oracleHighScore concatAgent [] 90 1).1.getLast?
          = some Phase.exportCode)
    ∧ ((sp_run oracleHighScore 2).1.count Phase.evaluate ≤ 2 + 1
      ∧ (sp_run oracleHighScore 2).1.count Phase.exportCode = 1
      ∧ (sp_run oracleHighScore 2).1.getLast? = some Phase.exportCode) :=
  C1_amended_termination_and_export oracleHighScore oracleHighScore
    concatAgent [] 90 1 2
    (fun k i h => by
      have h90 : (90 : ℚ) ≤ (oracleHighScore k).score := by
        show (90 : ℚ) ≤ 95
        norm_num
      rw [route_export_of_score 1 i h90] at h
      exact absurd h (by decide))

/-- C2: if the first evaluation's score already reaches the target (the
`target_score` of the pyspark controller, 90 in the stored-procedure
converter), the run performs zero improve invocations. -/
theorem C2_fast_path_no_improve (oracle spOracle : Nat → EvaluationOut)
    (agent : Files → List String → Files) (convertOut : Files)
    (target : ℚ) (maxIters iterations : Nat)
    (h1 : target ≤ (oracle 0).score) (h2 : (90 : ℚ) ≤ (spOracle 0).score) :
    (run_pyspark oracle agent convertOut target maxIters).1.count Phase.improve = 0
    ∧ (sp_run spOracle iterations).1.count Phase.improve = 0 := by
  constructor
  · have hr : ¬ route_after_evaluate target maxIters (oracle 0).score 0 = "improve" := by
      intro hcontra
      rw [route_export_of_score maxIters 0 h1] at hcontra
      exact absurd hcontra (by decide)
    simp only [run_pyspark]
    rw [pysparkLoop_succ_export_fst oracle agent target maxIters maxIters 0 0 convertOut hr]
    decide
  · simp only [sp_run]
    rw [sp_iter_loop_stable spOracle iterations 1 (spOracle 0) (not_lt.mpr h2)]
    rfl

/-- Witness for C2: with a constant score of 95 neither controller ever
improves. -/
theorem C2_fast_path_no_improve_witness :
    (run_pyspark oracleHighScore concatAgent [] 90 2).1.count Phase.improve = 0
    ∧ (sp_run oracleHighScore 2).1.count Phase.improve = 0 :=
  C2_fast_path_no_improve oracleHighScore oracleHighScore concatAgent [] 90 2 2
    (by decide) (by decide)

/-- Helper: every attempt before the first success passes the identical
argument, and the first successful attempt's value is returned. -/
theorem convert_sp_v2_ok (attempt : Nat → String → Except String Files)
    (imp : String) (code : Files) :
    ∀ (n k fuel : Nat),
      (∀ j, j < n → ∃ e, attempt (k + j) imp = .error e) →
      attempt (k + n) imp = .ok code → n < fuel →
      convert_sp_v2 attempt imp k fuel = (List.replicate (n + 1) imp, some code) := by
  intro n
  induction n with
  | zero =>
    intro k fuel herr hok hf
    obtain ⟨f, rfl⟩ : ∃ f, fuel = f + 1 := ⟨fuel - 1, by omega⟩
    have hok' : attempt k imp = .ok code := by simpa using hok
    simp only [convert_sp_v2]
    rw [hok']
    rfl
  | succ n ih =>
    intro k fuel herr hok hf
    obtain ⟨f, rfl⟩ : ∃ f, fuel = f + 1 := ⟨fuel - 1, by omega⟩
    obtain ⟨e, he⟩ := herr 0 (by omega)
    have he' : attempt k imp = .error e := by simpa using he
    have hrec := ih (k + 1) f
      (fun j hj => by
        obtain ⟨e2, he2⟩ := herr (j + 1) (by omega)
        exact ⟨e2, by rw [show k + 1 + j = k + (j + 1) from by omega]; exact he2⟩)
      (by rw [show k + 1 + n = k + (n + 1) from by omega]; exact hok)
      (by omega)
    simp only [convert_sp_v2]
    rw [he', hrec]
    rfl

/-- Helper: while every attempt raises, the function never returns
normally. -/
theorem convert_sp_v2_err (attempt : Nat → String → Except String Files)
    (imp : String) :
    ∀ (m k : Nat), (∀ j, j < m → ∃ e, attempt (k + j) imp = .error e) →
      (convert_sp_v2 attempt imp k m).2 = none := by
  intro m
  induction m with
  | zero => intro k _; rfl
  | succ m ih =>
    intro k herr
    obtain ⟨e, he⟩ := herr 0 (by omega)
    have he' : attempt k imp = .error e := by simpa using he
    simp only [convert_sp_v2]
    rw [he']
    exact ih (k + 1)
      (fun j hj => by
        obtain ⟨e2, he2⟩ := herr (j + 1) (by omega)
        exact ⟨e2, by rw [show k + 1 + j = k + (j + 1) from by omega]; exact he2⟩)

/-- C6: when the model invocation or response parsing inside
`convert_sp_v2` raises, the improver immediately calls itself again with
the identical `imp` argument — no retry cap, no backoff, no change of
inputs: if the first `n` attempts raise and attempt `n` succeeds, the call
makes exactly `n + 1` attempts, each with the same argument, and returns
the succeeding attempt's result; while attempts keep raising, no normal
return happens. -/
theorem C6_unconditional_retry (attempt : Nat → String → Except String Files)
    (imp : String) (n fuel : Nat) (code : Files)
    (herr : ∀ j, j < n → ∃ e, attempt j imp = .error e)
    (hok : attempt n imp = .ok code) (hfuel : n < fuel) :
    convert_sp_v2 attempt imp 0 fuel = (List.replicate (n + 1) imp, some code)
    ∧ (convert_sp_v2 attempt imp 0 n).2 = none := by
  constructor
  · exact convert_sp_v2_ok attempt imp code n 0 fuel
      (fun j hj => by simpa using herr j hj) (by simpa using hok) hfuel
  · exact convert_sp_v2_err attempt imp n 0 (fun j hj => by simpa using herr j hj)

/-- Witness for C6: two raising attempts followed by a success give three
calls with the identical argument and the third attempt's result; with only
the raising attempts available, no normal return. -/
theorem C6_unconditional_retry_witness :
    convert_sp_v2 flakyAttempt "handle nulls" 0 5
        = (List.replicate 3 "handle nulls", some [("A.java", "code")])
    ∧ (convert_sp_v2 flakyAttempt "handle nulls" 0 2).2 = none :=
  C6_unconditional_retry flakyAttempt "handle nulls" 2 5 [("A.java", "code")]
    (fun j hj => ⟨"model failure", by
      show (if j < 2 then Except.error "model failure"
          else Except.ok [("A.java", "code")]) = Except.error "model failure"
      rw [if_pos hj]⟩)
    rfl (by omega)

/-- C7 counterexample: nothing clamps or validates the evaluation score —
`evaluate_sp` passes the model's response through unchanged, so a model
score of 150 lies outside [0, 100] and is consumed raw by the iteration
controller (which treats it as ≥ 90 and skips every improve pass). -/
theorem C7_counterexample_no_clamp :
    (evaluate_sp outOfRangeResponse).score = 150
    ∧ ¬ ((evaluate_sp outOfRangeResponse).score ≤ 100)
    ∧ (sp_run (fun _ => outOfRangeResponse) 2).1.count Phase.improve = 0 :=
  ⟨rfl, by decide, by decide⟩

/-- C7 (amended): the evaluation score is used by the iteration controllers
exactly as the model returned it — `evaluate_sp` is the identity on the
structured response — so the score lies in [0, 100] precisely when the
model's score does; no clamping happens on the caller side. -/
theorem C7_amended_score_passthrough (r : EvaluationOut)
    (h0 : 0 ≤ r.score) (h1 : r.score ≤ 100) :
    evaluate_sp r = r
    ∧ 0 ≤ (evaluate_sp r).score ∧ (evaluate_sp r).score ≤ 100 :=
  ⟨rfl, h0, h1⟩

/-- Witness for the amended C7 at a well-behaved model response. -/
theorem C7_amended_score_passthrough_witness :
    evaluate_sp ⟨["x"], 72, "ok"⟩ = ⟨["x"], 72, "ok"⟩
    ∧ 0 ≤ (evaluate_sp ⟨["x"], 72, "ok"⟩).score
    ∧ (evaluate_sp ⟨["x"], 72, "ok"⟩).score ≤ 100 :=
  C7_amended_score_passthrough ⟨["x"], 72, "ok"⟩ (by decide) (by decide)

/-- Helper: appending the empty string is the identity. -/
theorem string_append_empty (s : String) : s ++ "" = s := by
  cases s with
  | mk data =>
    show String.mk (data ++ []) = String.mk data
    rw [List.append_nil]

/-- C3 counterexample: in recursive mode, a missing internal procedure
triggers a full child conversion (which persists the child's code into the
catalogue) but the catalogue lookup is never retried — the resolved
dependency text stays empty and does not include the newly persisted
procedure's code. -/
theorem C3_counterexample_no_retry :
    (prepare_internal_sps spsText childCode [] ["foo"]).1 = ""
    ∧ (prepare_internal_sps spsText childCode [] ["foo"]).2
        = [("foo.sql", [("A.java", "CODE")])]
    ∧ strContainsB (prepare_internal_sps spsText childCode [] ["foo"]).1 "CODE"
        = false :=
  ⟨rfl, rfl, rfl⟩

/-- C3 (amended): for an internal-procedure identifier whose normalised
name has no truthy catalogue entry (the key is absent, or — `if sps:` —
the stored code map is empty), the resolver runs a full child conversion
whose export persists the child's code into the catalogue, but performs no
second lookup: the resolved dependency text contributes nothing for that
identifier; a truthy hit contributes `f"{sp}\n{sps}\n\n"` and leaves the
catalogue unchanged. -/
theorem C3_amended_miss_converts_without_retry (toText : Files → String)
    (childFinal : String → Files) (cat : List (String × Files)) (sp : String)
    (c : Files) :
    (dictGet cat (normalize_sql_name sp) = none →
      prepare_internal_sps toText childFinal cat [sp]
        = ("", pyDictSet cat (normalize_sql_name sp)
            (childFinal (normalize_sql_name sp))))
    ∧ (dictGet cat (normalize_sql_name sp) = some c → c.isEmpty = true →
      prepare_internal_sps toText childFinal cat [sp]
        = ("", pyDictSet cat (normalize_sql_name sp)
            (childFinal (normalize_sql_name sp))))
    ∧ (dictGet cat (normalize_sql_name sp) = some c → c.isEmpty = false →
      prepare_internal_sps toText childFinal cat [sp]
        = (normalize_sql_name sp ++ "\n" ++ toText c ++ "\n\n", cat)) := by
  refine ⟨?_, ?_, ?_⟩
  · intro h
    simp only [prepare_internal_sps]
    rw [h]
  · intro h h2
    simp only [prepare_internal_sps]
    rw [h]
    simp [h2]
  · intro h h2
    simp only [prepare_internal_sps]
    rw [h]
    simp [h2, string_append_empty]

/-- Witness for the amended C3: an absent key and a present-but-empty
(falsy) entry both convert the child and extend the catalogue while
contributing no text; a truthy hit contributes the stored code. -/
theorem C3_amended_miss_converts_without_retry_witness :
    prepare_internal_sps spsText childCode [("bar.sql", [("B.java", "b")])] ["foo"]
        = ("", pyDictSet [("bar.sql", [("B.java", "b")])] (normalize_sql_name "foo")
            (childCode (normalize_sql_name "foo")))
    ∧ prepare_internal_sps spsText childCode [("foo.sql", [])] ["foo"]
        = ("", pyDictSet [("foo.sql", [])] (normalize_sql_name "foo")
            (childCode (normalize_sql_name "foo")))
    ∧ prepare_internal_sps spsText childCode [("foo.sql", [("A.java", "x")])] ["foo"]
        = (normalize_sql_name "foo" ++ "\n" ++ spsText [("A.java", "x")] ++ "\n\n",
            [("foo.sql", [("A.java", "x")])]) :=
  ⟨(C3_amended_miss_converts_without_retry spsText childCode
      [("bar.sql", [("B.java", "b")])] "foo" []).1 (by decide),
    (C3_amended_miss_converts_without_retry spsText childCode
      [("foo.sql", [])] "foo" []).2.1 (by decide) (by decide),
    (C3_amended_miss_converts_without_retry spsText childCode
      [("foo.sql", [("A.java", "x")])] "foo" [("A.java", "x")]).2.2
      (by decide) (by decide)⟩

/-- C8: Dependency Store lookup with both a field name and a value (the
named-field path of `find_from_json`) matches case-insensitively — a record
whose field equals the searched value up to letter case is returned —
whereas lookup by key only against the procedure catalogue's JSON object is
a case-sensitive exact `dict.get`, so a key differing only in case is a
miss. -/
theorem C8_lookup_case_modes (key v w : String) (r : Record)
    (rest : List Record) (d : List (String × α)) (k k' : String) (val : α)
    (hv : v ≠ "") (hw : dictGet r key = some w)
    (hcase : lowerChars w = lowerChars v)
    (hk : k' ≠ "") (hlow : lowerChars k = lowerChars k') (hne : k ≠ k') :
    find_from_json (JsonData.list (r :: rest) : JsonData α) (some key) (some v)
        = .ok (.record (some r))
    ∧ find_from_json (JsonData.dict d) (some k') none
        = .ok (.value (dictGet d k'))
    ∧ dictGet [(k, val)] k' = none := by
  refine ⟨?_, ?_, ?_⟩
  · simp [find_from_json, pyTruthy, hv, findNamedLoop, recordGet, hw, hcase, Except.map]
  · simp [find_from_json, pyTruthy, hk]
  · simp [dictGet, hne]

/-- Witness for C8: a mixed-case entity name is found by the named-field
path, while the key-only path misses a key that differs only in case. -/
theorem C8_lookup_case_modes_witness :
    find_from_json (JsonData.list [[("entity_name", "Orders.JAVA")]] : JsonData String)
        (some "entity_name") (some "orders.java")
        = .ok (.record (some [("entity_name", "Orders.JAVA")]))
    ∧ find_from_json (JsonData.dict [("Foo.sql", "code")]) (some "foo.sql") none
        = .ok (.value (dictGet [("Foo.sql", "code")] "foo.sql"))
    ∧ dictGet [("Foo.sql", "code")] "foo.sql" = none :=
  C8_lookup_case_modes "entity_name" "orders.java" "Orders.JAVA"
    [("entity_name", "Orders.JAVA")] [] [("Foo.sql", "code")] "Foo.sql" "foo.sql"
    "code" (by decide) (by decide) (by decide) (by decide) (by decide) (by decide)

/-- Helper: `data[key] = value` binds `key` to `value`. -/
theorem pyDictSet_get_self (d : List (String × α)) (key : String) (v : α) :
    dictGet (pyDictSet d key v) key = some v := by
  induction d with
  | nil => simp [pyDictSet, dictGet]
  | cons p rest ih =>
    obtain ⟨a, b⟩ := p
    by_cases hak : a = key
    · subst hak
      simp [pyDictSet, dictGet]
    · simp [pyDictSet, dictGet, hak, ih]

/-- Helper: `data[key] = value` leaves every other key's binding
unchanged. -/
theorem pyDictSet_get_other (d : List (String × α)) (key other : String) (v : α)
    (h : other ≠ key) :
    dictGet (pyDictSet d key v) other = dictGet d other := by
  induction d with
  | nil => simp [pyDictSet, dictGet, Ne.symm h]
  | cons p rest ih =>
    obtain ⟨a, b⟩ := p
    by_cases hak : a = key
    · subst hak
      simp [pyDictSet, dictGet, Ne.symm h]
    · by_cases hao : a = other
      · subst hao
        simp [pyDictSet, dictGet, hak]
      · simp [pyDictSet, dictGet, hak, hao, ih]

/-- C9: the export-phase store write `save_code` sets the catalogue entry
keyed by the unit's name to its current ConversionResult and leaves the
value bound to every other key unchanged; when the catalogue file does not
exist, it is created containing exactly that one entry. -/
theorem C9_save_code_frame (name : String) (code : Files)
    (data : List (String × Files)) (k : String) (hk : k ≠ name) :
    dictGet (save_code name code (some data)) name = some code
    ∧ dictGet (save_code name code (some data)) k = dictGet data k
    ∧ save_code name code none = [(name, code)] :=
  ⟨pyDictSet_get_self data name code, pyDictSet_get_other data name k code hk, rfl⟩

/-- Witness for C9 on a two-procedure catalogue. -/
theorem C9_save_code_frame_witness :
    dictGet (save_code "P.sql" [("A.java", "a")]
        (some [("Q.sql", [("B.java", "b")])])) "P.sql" = some [("A.java", "a")]
    ∧ dictGet (save_code "P.sql" [("A.java", "a")]
        (some [("Q.sql", [("B.java", "b")])])) "Q.sql"
        = dictGet [("Q.sql", [("B.java", "b")])] "Q.sql"
    ∧ save_code "P.sql" [("A.java", "a")] none = [("P.sql", [("A.java", "a")])] :=
  C9_save_code_frame "P.sql" [("A.java", "a")] [("Q.sql", [("B.java", "b")])]
    "Q.sql" (by decide)
